import Mathlib

/-!
Verification of the `bincmp` binary comparator (src/main.rs).

The program reads two files in 1024-byte chunks, compares them byte by
byte, and prints one row per differing byte pair (offset and the two
values) in one of four numeric formats.  Bytes are modelled as `Nat`
(all values produced by the reads are < 256 for genuine byte streams;
the arithmetic in the classifier is exact on this range, and the only
subtraction is guarded so no 8-bit wrap-around can occur — see
`is_bitflipped_checked`).  Each `writeln!` to the output writer is
modelled as one `String` in a list.
-/

/-- Embeds `const BUFFER_SIZE: usize = 1024`. -/
def BUFFER_SIZE : Nat := 1024

/-- Embeds `enum ValueOutputFormat { Hex, Decimal, Binary, Combined }`. -/
inductive ValueOutputFormat where
  | Hex
  | Decimal
  | Binary
  | Combined
deriving DecidableEq, Repr

/-- Embeds Rust's `{:x}` formatting of an unsigned integer: lowercase
hexadecimal digits, no `0x` prefix, minimal width (`Nat.digitChar` maps
10..15 to the lowercase letters a..f). -/
def toHex (n : Nat) : String := String.mk (Nat.toDigits 16 n)

/-- Embeds Rust's `{:08b}` formatting of an unsigned integer: binary
digits, left-padded with zeros to width 8. -/
def toBin8 (n : Nat) : String :=
  let ds := Nat.toDigits 2 n
  String.mk (List.replicate (8 - ds.length) '0' ++ ds)

/-- Embeds Rust's `{}` (decimal) formatting of an unsigned integer. -/
def toDec (n : Nat) : String := Nat.repr n

/-- Embeds the `match format { ... writeln!(...) }` arms inside
`compare_buffers`: the exact line written for one difference, including
the tab separators and the terminating newline added by `writeln!`. -/
def renderRow (format : ValueOutputFormat) (offset v1 v2 : Nat) : String :=
  match format with
  | ValueOutputFormat.Binary =>
      toHex offset ++ "\t" ++ toBin8 v1 ++ "\t" ++ toBin8 v2 ++ "\t\n"
  | ValueOutputFormat.Hex =>
      toHex offset ++ "\t" ++ toHex v1 ++ "\t" ++ toHex v2 ++ "\t\n"
  | ValueOutputFormat.Decimal =>
      toDec offset ++ "\t" ++ toDec v1 ++ "\t" ++ toDec v2 ++ "\t\n"
  | ValueOutputFormat.Combined =>
      toDec offset ++ "\t" ++ toHex offset ++ "\t" ++ toDec v1 ++ "\t" ++
        toHex v1 ++ "\t" ++ toDec v2 ++ "\t" ++ toHex v2 ++ "\t\n"

/-- Embeds the header `writeln!` in `main` (before the loop). -/
def header (format : ValueOutputFormat) : String :=
  match format with
  | ValueOutputFormat.Combined => "OFFSET\tHex\tFILE1\tHex\tFILE2\tHex\t\n"
  | _ => "OFFSET\tFILE1\tFILE2\t\n"

/-- Embeds `fn is_bitflipped(v1: u8, v2: u8) -> bool`.  `^` is `^^^`,
`&` is `&&&`; the `v - 1` uses `Nat` subtraction, which agrees with the
u8 subtraction because it is only reached when `v != 0`
(see `is_bitflipped_checked`). -/
def is_bitflipped (v1 v2 : Nat) : Bool :=
  let v := v1 ^^^ v2
  if v = 0 then false
  else v &&& (v - 1) == 0

/-- Embeds the classifier expression
`let is_diff = bitflip_only && is_bitflipped(v1, v2) || !bitflip_only && (v1 != v2);`
from `compare_buffers` (Rust `&&` binds tighter than `||`). -/
def is_diff (bitflip_only : Bool) (v1 v2 : Nat) : Bool :=
  bitflip_only && is_bitflipped v1 v2 || !bitflip_only && (v1 != v2)

/-- Embeds `fn compare_buffers`: iterate over the indices of the two
buffers, and for each index where the classifier fires, write one
rendered row at absolute offset `buffer_offset + i`.  The source
iterates `i in 0..buffer1.len()` and indexes both slices; both call
sites pass slices of one common length `n`, which the paired structural
recursion realises. -/
def compare_buffers : List Nat → List Nat → Nat → ValueOutputFormat → Bool → List String
  | v1 :: t1, v2 :: t2, buffer_offset, format, bitflip_only =>
      (if is_diff bitflip_only v1 v2 then [renderRow format buffer_offset v1 v2] else [])
        ++ compare_buffers t1 t2 (buffer_offset + 1) format bitflip_only
  | _, _, _, _, _ => []

/-- Fuel-driven helper for `popcount` (the fuel makes the binary
recursion structural, so that it evaluates by `decide`/`rfl`). -/
def popcountAux : Nat → Nat → Nat
  | 0, _ => 0
  | fuel + 1, n => if n = 0 then 0 else n % 2 + popcountAux fuel (n / 2)

/-- Number of set bits of a natural number (the `popcount` in the
specification's statement about the single-bit-flip classifier). -/
def popcount (n : Nat) : Nat := popcountAux n n

/-- Embeds Rust's checked (debug-mode) u8 subtraction: `none` exactly
when the subtraction would underflow. -/
def checked_sub (a b : Nat) : Option Nat :=
  if b ≤ a then some (a - b) else none

/-- Variant of `is_bitflipped` in which the `v - 1` is the checked
subtraction: it returns `none` exactly when the source's subtraction
would underflow below zero. -/
def is_bitflipped_checked (v1 v2 : Nat) : Option Bool :=
  let v := v1 ^^^ v2
  if v = 0 then some false
  else (checked_sub v 1).map (fun w => v &&& w == 0)

lemma popcountAux_zero (f : Nat) : popcountAux f 0 = 0 := by
  cases f <;> simp [popcountAux]

lemma popcountAux_congr (f : Nat) :
    ∀ g n : Nat, n ≤ f → n ≤ g → popcountAux f n = popcountAux g n := by
  induction f with
  | zero =>
    intro g n h1 _
    have hn : n = 0 := Nat.le_zero.mp h1
    subst hn
    simp [popcountAux_zero]
  | succ f ih =>
    intro g n h1 h2
    cases n with
    | zero => simp [popcountAux_zero]
    | succ m =>
      cases g with
      | zero => omega
      | succ g =>
        simp only [popcountAux, Nat.succ_ne_zero, if_false]
        congr 1
        exact ih g ((m + 1) / 2) (by omega) (by omega)

lemma popcount_eq_of_ne_zero (n : Nat) (h : n ≠ 0) :
    popcount n = n % 2 + popcount (n / 2) := by
  obtain ⟨m, rfl⟩ : ∃ m, n = m + 1 := ⟨n - 1, by omega⟩
  show popcountAux (m + 1) (m + 1) = (m + 1) % 2 + popcountAux ((m + 1) / 2) ((m + 1) / 2)
  simp only [popcountAux, Nat.succ_ne_zero, if_false]
  congr 1
  exact popcountAux_congr m ((m + 1) / 2) ((m + 1) / 2) (by omega) (le_refl _)

lemma popcount_zero : popcount 0 = 0 := rfl

lemma popcount_two_mul (n : Nat) : popcount (2 * n) = popcount n := by
  rcases Nat.eq_zero_or_pos n with rfl | hn
  · rfl
  · rw [popcount_eq_of_ne_zero (2 * n) (by omega)]
    have h1 : (2 * n) % 2 = 0 := by omega
    have h2 : (2 * n) / 2 = n := by omega
    rw [h1, h2, Nat.zero_add]

lemma popcount_two_mul_add_one (n : Nat) : popcount (2 * n + 1) = 1 + popcount n := by
  rw [popcount_eq_of_ne_zero (2 * n + 1) (by omega)]
  have h1 : (2 * n + 1) % 2 = 1 := by omega
  have h2 : (2 * n + 1) / 2 = n := by omega
  rw [h1, h2]

lemma popcount_bit (b : Bool) (n : Nat) :
    popcount (Nat.bit b n) = b.toNat + popcount n := by
  cases b with
  | false => rw [Nat.bit_val]; simpa using popcount_two_mul n
  | true => rw [Nat.bit_val]; simpa [Nat.add_comm] using popcount_two_mul_add_one n

lemma popcount_pos (n : Nat) (h : n ≠ 0) : 0 < popcount n := by
  induction n using Nat.binaryRec with
  | z => exact absurd rfl h
  | f b n ih =>
    rw [popcount_bit]
    cases b with
    | true => simp
    | false =>
      have hn : n ≠ 0 := by
        intro hn0
        exact h (by simp [hn0, Nat.bit_val])
      have hpos := ih hn
      simp only [Bool.toNat_false, Nat.zero_add]
      exact hpos

lemma land_self (n : Nat) : n &&& n = n :=
  Nat.eq_of_testBit_eq fun i => by rw [Nat.testBit_land]; exact Bool.and_self _

lemma land_pred_eq_zero_iff (v : Nat) :
    (v ≠ 0 ∧ v &&& (v - 1) = 0) ↔ popcount v = 1 := by
  induction v using Nat.binaryRec with
  | z => simp [popcount_zero]
  | f b n ih =>
    cases b with
    | false =>
      rcases Nat.eq_zero_or_pos n with rfl | hn
      · simp [Nat.bit_val, popcount_zero]
      · have h1 : Nat.bit false n - 1 = Nat.bit true (n - 1) := by
          simp only [Nat.bit_val, Bool.toNat_false, Bool.toNat_true]
          omega
        have hbe : Nat.bit false n ≠ 0 := by
          simp only [Nat.bit_val, Bool.toNat_false]
          omega
        rw [h1, Nat.land_bit, popcount_bit]
        have hland : Nat.bit (false && true) (n &&& (n - 1)) =
            Nat.bit false (n &&& (n - 1)) := rfl
        rw [hland]
        constructor
        · rintro ⟨-, hand⟩
          have hz : n &&& (n - 1) = 0 := (Nat.bit_eq_zero_iff.mp hand).1
          have hres := ih.mp ⟨by omega, hz⟩
          simpa using hres
        · intro hp
          have hp' : popcount n = 1 := by simpa using hp
          obtain ⟨-, hand⟩ := ih.mpr hp'
          refine ⟨hbe, ?_⟩
          rw [Nat.bit_eq_zero_iff]
          exact ⟨hand, rfl⟩
    | true =>
      rcases Nat.eq_zero_or_pos n with rfl | hn
      · show ((1 : Nat) ≠ 0 ∧ 1 &&& (1 - 1) = 0) ↔ popcount 1 = 1
        decide
      · have h1 : Nat.bit true n - 1 = Nat.bit false n := by
          simp only [Nat.bit_val, Bool.toNat_false, Bool.toNat_true]
          omega
        rw [h1, Nat.land_bit, popcount_bit]
        have hland : Nat.bit (true && false) (n &&& n) = Nat.bit false n := by
          rw [land_self]
          rfl
        rw [hland]
        constructor
        · rintro ⟨-, hand⟩
          have hz : n = 0 := (Nat.bit_eq_zero_iff.mp hand).1
          omega
        · intro hp
          simp only [Bool.toNat_true] at hp
          have := popcount_pos n (by omega)
          omega

lemma is_bitflipped_iff_popcount (v1 v2 : Nat) :
    is_bitflipped v1 v2 = true ↔ popcount (v1 ^^^ v2) = 1 := by
  by_cases h : v1 ^^^ v2 = 0
  · simp [is_bitflipped, h, popcount_zero]
  · simp only [is_bitflipped]
    rw [if_neg h, ← land_pred_eq_zero_iff]
    constructor
    · intro hb
      exact ⟨h, by simpa using hb⟩
    · rintro ⟨-, hand⟩
      simpa using hand

/-- C2: for all byte values `a` and `b` (0–255), `is_bitflipped a b`
returns `true` if and only if `popcount (a ^^^ b) = 1`; in particular
it returns `false` on identical bytes and `false` whenever the bytes
differ in two or more bit positions. -/
theorem c2_bitflip_classifier :
    ∀ a b : Fin 256,
      (is_bitflipped a.val b.val = true ↔ popcount (a.val ^^^ b.val) = 1) ∧
      is_bitflipped a.val a.val = false ∧
      (2 ≤ popcount (a.val ^^^ b.val) → is_bitflipped a.val b.val = false) := by
  intro a b
  refine ⟨is_bitflipped_iff_popcount a.val b.val, ?_, ?_⟩
  · simp [is_bitflipped]
  · intro h2
    by_contra hc
    have ht : is_bitflipped a.val b.val = true := by
      cases hb : is_bitflipped a.val b.val
      · exact absurd hb hc
      · rfl
    have := (is_bitflipped_iff_popcount a.val b.val).mp ht
    omega

/-- C8: in exact-inequality mode (`single_bitflip_only == false`, the
default), the classifier reports a difference if and only if the two
bytes are unequal. -/
theorem c8_exact_mode_classifier :
    ∀ v1 v2 : Nat, is_diff false v1 v2 = true ↔ v1 ≠ v2 := by
  intro v1 v2
  simp [is_diff]

/-- C10: the guarded subtraction in `is_bitflipped` never underflows:
replacing `v - 1` by a checked u8 subtraction (which reports underflow
as `none`) yields `some` of the same answer on every one of the 65536
byte pairs, so the function is total and the `v == 0` guard makes the
subtraction safe. -/
theorem c10_no_underflow :
    ∀ a b : Fin 256,
      is_bitflipped_checked a.val b.val = some (is_bitflipped a.val b.val) := by
  intro a b
  unfold is_bitflipped_checked is_bitflipped checked_sub
  by_cases h : a.val ^^^ b.val = 0
  · simp [h]
  · have h1 : 1 ≤ a.val ^^^ b.val := by omega
    simp [h, h1]

/-- C5: exact rendering of a difference row in each of the four output
formats, at the specification's example row: bytes `0x0F` and `0x1F`
differing at offset 5.  Hex renders all three fields in lowercase
hexadecimal without a `0x` prefix; decimal renders all three in base
10; binary renders the offset in hexadecimal and each value as
8-digit zero-padded binary; combined renders the six columns offset
(decimal), offset (hex), value1 (decimal), value1 (hex), value2
(decimal), value2 (hex). -/
theorem c5_format_rendering :
    renderRow ValueOutputFormat.Hex 5 15 31 = "5\tf\t1f\t\n" ∧
    renderRow ValueOutputFormat.Decimal 5 15 31 = "5\t15\t31\t\n" ∧
    renderRow ValueOutputFormat.Binary 5 15 31 = "5\t00001111\t00011111\t\n" ∧
    renderRow ValueOutputFormat.Combined 5 15 31 = "5\t5\t15\tf\t31\t1f\t\n" := by
  refine ⟨?_, ?_, ?_, ?_⟩ <;> decide

/-- Result of one `f.read(&mut buffer)` call: either a chunk of bytes
(`n` of them, `0 ≤ n ≤ BUFFER_SIZE` for a real file; `[]` models the
`Ok(0)` returned at end of file) or an I/O error. -/
inductive ReadResult where
  | ok (chunk : List Nat)
  | err
deriving DecidableEq, Repr

/-- Model of an input stream as seen through `File::read`: the sequence
of results the successive reads return.  Reads past the end of the list
return `ok []` (end of file keeps returning zero bytes). -/
abbrev ReadScript := List ReadResult

/-- Which of the two files the `NOTE:` on standard error names as the
larger one. -/
inductive Note where
  | firstLarger
  | secondLarger
deriving DecidableEq, Repr

/-- Observable outcome of the comparison loop in `main`: the rows
written to the table writer in order, the optional note printed on
standard error, and whether the loop completed without an I/O error
(`main` returns `Ok(())` exactly when `success` holds). -/
structure RunResult where
  rows : List String
  note : Option Note
  success : Bool
deriving DecidableEq, Repr

/-- Embeds the `match n1.cmp(&n2)` on the terminating iteration:
`Less` prints that the second file is larger, `Greater` that the first
is, `Equal` prints nothing. -/
def noteOfCmp (n1 n2 : Nat) : Option Note :=
  if n1 < n2 then some Note.secondLarger
  else if n2 < n1 then some Note.firstLarger
  else none

/-- Embeds the `loop { ... }` in `main`.  Each iteration reads one
chunk from each script (an exhausted script reads as `ok []`), compares
the first `n = min n1 n2` bytes when `n != 0`, and either terminates
(`n < BUFFER_SIZE`, printing the note from `n1.cmp(&n2)`) or advances
`offset` by `BUFFER_SIZE` and continues.  A failed read (`err`) makes
`main` return the error immediately (`?`): no rows from that iteration,
no note, `success = false`.  The first read (`f1`) happens before the
second, but either failure aborts with the same observable outcome. -/
def runLoop : ReadScript → ReadScript → Nat → ValueOutputFormat → Bool → RunResult
  | ReadResult.err :: _, _, _, _, _ => ⟨[], none, false⟩
  | _, ReadResult.err :: _, _, _, _ => ⟨[], none, false⟩
  | [], [], _, _, _ => ⟨[], noteOfCmp 0 0, true⟩
  | [], ReadResult.ok c2 :: _, _, _, _ => ⟨[], noteOfCmp 0 c2.length, true⟩
  | ReadResult.ok c1 :: _, [], _, _, _ => ⟨[], noteOfCmp c1.length 0, true⟩
  | ReadResult.ok c1 :: t1, ReadResult.ok c2 :: t2, offset, format, bitflip_only =>
      let n := min c1.length c2.length
      let rows :=
        if n ≠ 0 then compare_buffers (c1.take n) (c2.take n) offset format bitflip_only
        else []
      if n < BUFFER_SIZE then
        ⟨rows, noteOfCmp c1.length c2.length, true⟩
      else
        let r := runLoop t1 t2 (offset + BUFFER_SIZE) format bitflip_only
        ⟨rows ++ r.rows, r.note, r.success⟩

/-- Read script of a regular file holding the byte sequence `l`: every
read fills the whole 1024-byte buffer until the remaining bytes run
out, and no read fails.  (A short read happens exactly at end of
file.) -/
def toScript (l : List Nat) : ReadScript :=
  if l.isEmpty then []
  else ReadResult.ok (l.take BUFFER_SIZE) :: toScript (l.drop BUFFER_SIZE)
termination_by l.length
decreasing_by
  rename_i h
  rw [List.isEmpty_iff] at h
  have hp : 0 < l.length := List.length_pos.mpr h
  simp only [List.length_drop, BUFFER_SIZE]
  omega

/-- The comparison loop of `main` run on two regular files with byte
contents `l1` and `l2`, from offset 0. -/
def runFile (l1 l2 : List Nat) (format : ValueOutputFormat) (bitflip_only : Bool) :
    RunResult :=
  runLoop (toScript l1) (toScript l2) 0 format bitflip_only

/-- Full primary output of `main` on two regular files: the header row
followed by the difference rows. -/
def bincmp (l1 l2 : List Nat) (format : ValueOutputFormat) (bitflip_only : Bool) :
    RunResult :=
  let r := runFile l1 l2 format bitflip_only
  ⟨header format :: r.rows, r.note, r.success⟩

/-- Value of the `offset` variable at the start of each iteration the
loop begins (the aborting or terminating iteration included). -/
def loopOffsets : ReadScript → ReadScript → Nat → List Nat
  | ReadResult.ok c1 :: t1, ReadResult.ok c2 :: t2, offset =>
      if min c1.length c2.length < BUFFER_SIZE then [offset]
      else offset :: loopOffsets t1 t2 (offset + BUFFER_SIZE)
  | _, _, offset => [offset]

/-- Number of byte pairs actually compared in each iteration the loop
begins (`min n1 n2`; an iteration aborted by a read error compares
nothing). -/
def comparedLens : ReadScript → ReadScript → List Nat
  | ReadResult.ok c1 :: t1, ReadResult.ok c2 :: t2 =>
      if min c1.length c2.length < BUFFER_SIZE then [min c1.length c2.length]
      else min c1.length c2.length :: comparedLens t1 t2
  | _, _ => [0]

lemma compare_buffers_nil_left (l : List Nat) (off : Nat) (fmt : ValueOutputFormat)
    (bo : Bool) : compare_buffers [] l off fmt bo = [] := by
  cases l <;> rfl

lemma compare_buffers_nil_right (l : List Nat) (off : Nat) (fmt : ValueOutputFormat)
    (bo : Bool) : compare_buffers l [] off fmt bo = [] := by
  cases l <;> rfl

lemma compare_buffers_cons (v1 v2 : Nat) (t1 t2 : List Nat) (off : Nat)
    (fmt : ValueOutputFormat) (bo : Bool) :
    compare_buffers (v1 :: t1) (v2 :: t2) off fmt bo =
      (if is_diff bo v1 v2 then [renderRow fmt off v1 v2] else []) ++
        compare_buffers t1 t2 (off + 1) fmt bo := rfl

lemma compare_buffers_append (a1 : List Nat) :
    ∀ (a2 b1 b2 : List Nat) (off : Nat) (fmt : ValueOutputFormat) (bo : Bool),
      a1.length = a2.length →
      compare_buffers (a1 ++ b1) (a2 ++ b2) off fmt bo =
        compare_buffers a1 a2 off fmt bo ++
          compare_buffers b1 b2 (off + a1.length) fmt bo := by
  induction a1 with
  | nil =>
    intro a2 b1 b2 off fmt bo h
    have : a2 = [] := by
      have := h.symm
      simpa [List.length_eq_zero] using this
    subst this
    simp [compare_buffers_nil_left]
  | cons v1 t1 ih =>
    intro a2 b1 b2 off fmt bo h
    cases a2 with
    | nil => simp at h
    | cons v2 t2 =>
      rw [List.cons_append, List.cons_append, compare_buffers_cons, compare_buffers_cons]
      rw [ih t2 b1 b2 (off + 1) fmt bo (by simpa using h)]
      have harith : off + 1 + t1.length = off + (v1 :: t1).length := by
        simp [List.length_cons]
        omega
      rw [harith, List.append_assoc]

lemma compare_buffers_take (n : Nat) :
    ∀ (l1 l2 : List Nat) (off : Nat) (fmt : ValueOutputFormat) (bo : Bool),
      min l1.length l2.length ≤ n →
      compare_buffers (l1.take n) (l2.take n) off fmt bo =
        compare_buffers l1 l2 off fmt bo := by
  induction n with
  | zero =>
    intro l1 l2 off fmt bo h
    cases l1 with
    | nil => simp [compare_buffers_nil_left]
    | cons v1 t1 =>
      cases l2 with
      | nil => simp [compare_buffers_nil_right]
      | cons v2 t2 => simp at h
  | succ n ih =>
    intro l1 l2 off fmt bo h
    cases l1 with
    | nil => simp [compare_buffers_nil_left]
    | cons v1 t1 =>
      cases l2 with
      | nil => simp [compare_buffers_nil_right]
      | cons v2 t2 =>
        simp only [List.take_succ_cons, compare_buffers]
        rw [ih t1 t2 (off + 1) fmt bo (by simp at h ⊢; omega)]

lemma compare_buffers_eq_filterMap :
    ∀ (l1 l2 : List Nat) (off : Nat) (fmt : ValueOutputFormat) (bo : Bool),
      compare_buffers l1 l2 off fmt bo =
        (List.range (min l1.length l2.length)).filterMap (fun p =>
          if is_diff bo (l1.getD p 0) (l2.getD p 0) = true
          then some (renderRow fmt (off + p) (l1.getD p 0) (l2.getD p 0))
          else none) := by
  intro l1
  induction l1 with
  | nil =>
    intro l2 off fmt bo
    simp [compare_buffers_nil_left]
  | cons v1 t1 ih =>
    intro l2 off fmt bo
    cases l2 with
    | nil => simp [compare_buffers_nil_right]
    | cons v2 t2 =>
      have hmin : min (v1 :: t1).length (v2 :: t2).length = min t1.length t2.length + 1 := by
        simp only [List.length_cons]
        omega
      rw [hmin, List.range_succ_eq_map, List.filterMap_cons]
      rw [compare_buffers_cons, ih t2 (off + 1) fmt bo, List.filterMap_map]
      simp only [List.getD_cons_zero, Nat.add_zero]
      have hfun :
          ((fun p =>
              if is_diff bo ((v1 :: t1).getD p 0) ((v2 :: t2).getD p 0) = true
              then some (renderRow fmt (off + p) ((v1 :: t1).getD p 0) ((v2 :: t2).getD p 0))
              else none) ∘ Nat.succ) =
            (fun p =>
              if is_diff bo (t1.getD p 0) (t2.getD p 0) = true
              then some (renderRow fmt (off + 1 + p) (t1.getD p 0) (t2.getD p 0))
              else none) := by
        funext p
        have harith : off + (p + 1) = off + 1 + p := by omega
        simp [Function.comp, List.getD_cons_succ, harith]
      rw [hfun]
      by_cases hd : is_diff bo v1 v2 = true
      · simp [hd]
      · simp [hd]

lemma toScript_nil : toScript [] = [] := by
  rw [toScript]
  rfl

lemma toScript_of_ne_nil (l : List Nat) (h : l ≠ []) :
    toScript l =
      ReadResult.ok (l.take BUFFER_SIZE) :: toScript (l.drop BUFFER_SIZE) := by
  rw [toScript]
  simp [h]

lemma runLoop_err_head_left (t s2 : ReadScript) (off : Nat)
    (fmt : ValueOutputFormat) (bo : Bool) :
    runLoop (ReadResult.err :: t) s2 off fmt bo = ⟨[], none, false⟩ := by
  match s2 with
  | [] => rfl
  | ReadResult.err :: _ => rfl
  | ReadResult.ok _ :: _ => rfl

lemma runLoop_err_head_right (s1 : ReadScript) (t : ReadScript) (off : Nat)
    (fmt : ValueOutputFormat) (bo : Bool) :
    runLoop s1 (ReadResult.err :: t) off fmt bo = ⟨[], none, false⟩ := by
  match s1 with
  | [] => rfl
  | ReadResult.err :: _ => rfl
  | ReadResult.ok _ :: _ => rfl

lemma runLoop_nil_nil (off : Nat) (fmt : ValueOutputFormat) (bo : Bool) :
    runLoop [] [] off fmt bo = ⟨[], noteOfCmp 0 0, true⟩ := rfl

lemma runLoop_nil_ok (c2 : List Nat) (t2 : ReadScript) (off : Nat)
    (fmt : ValueOutputFormat) (bo : Bool) :
    runLoop [] (ReadResult.ok c2 :: t2) off fmt bo =
      ⟨[], noteOfCmp 0 c2.length, true⟩ := rfl

lemma runLoop_ok_nil (c1 : List Nat) (t1 : ReadScript) (off : Nat)
    (fmt : ValueOutputFormat) (bo : Bool) :
    runLoop (ReadResult.ok c1 :: t1) [] off fmt bo =
      ⟨[], noteOfCmp c1.length 0, true⟩ := rfl

lemma runLoop_ok_ok (c1 c2 : List Nat) (t1 t2 : ReadScript) (off : Nat)
    (fmt : ValueOutputFormat) (bo : Bool) :
    runLoop (ReadResult.ok c1 :: t1) (ReadResult.ok c2 :: t2) off fmt bo =
      if min c1.length c2.length < BUFFER_SIZE then
        ⟨if min c1.length c2.length ≠ 0 then
            compare_buffers (c1.take (min c1.length c2.length))
              (c2.take (min c1.length c2.length)) off fmt bo
          else [],
         noteOfCmp c1.length c2.length, true⟩
      else
        ⟨(if min c1.length c2.length ≠ 0 then
            compare_buffers (c1.take (min c1.length c2.length))
              (c2.take (min c1.length c2.length)) off fmt bo
          else []) ++ (runLoop t1 t2 (off + BUFFER_SIZE) fmt bo).rows,
         (runLoop t1 t2 (off + BUFFER_SIZE) fmt bo).note,
         (runLoop t1 t2 (off + BUFFER_SIZE) fmt bo).success⟩ := rfl

lemma noteOfCmp_min (L1 L2 : Nat)
    (h : min (min BUFFER_SIZE L1) (min BUFFER_SIZE L2) < BUFFER_SIZE) :
    noteOfCmp (min BUFFER_SIZE L1) (min BUFFER_SIZE L2) = noteOfCmp L1 L2 := by
  unfold noteOfCmp
  split_ifs <;> first | rfl | omega

lemma noteOfCmp_sub (L1 L2 : Nat) (h1 : BUFFER_SIZE ≤ L1) (h2 : BUFFER_SIZE ≤ L2) :
    noteOfCmp (L1 - BUFFER_SIZE) (L2 - BUFFER_SIZE) = noteOfCmp L1 L2 := by
  unfold noteOfCmp
  split_ifs <;> first | rfl | omega

lemma noteOfCmp_zero_min (L : Nat) :
    noteOfCmp 0 (min BUFFER_SIZE L) = noteOfCmp 0 L := by
  have hB : 0 < BUFFER_SIZE := by norm_num [BUFFER_SIZE]
  unfold noteOfCmp
  split_ifs <;> first | rfl | omega

lemma noteOfCmp_min_zero (L : Nat) :
    noteOfCmp (min BUFFER_SIZE L) 0 = noteOfCmp L 0 := by
  have hB : 0 < BUFFER_SIZE := by norm_num [BUFFER_SIZE]
  unfold noteOfCmp
  split_ifs <;> first | rfl | omega

lemma runLoop_toScript_nil_left (l2 : List Nat) (off : Nat)
    (fmt : ValueOutputFormat) (bo : Bool) :
    runLoop (toScript []) (toScript l2) off fmt bo =
      ⟨compare_buffers [] l2 off fmt bo, noteOfCmp 0 l2.length, true⟩ := by
  rw [toScript_nil]
  cases l2 with
  | nil =>
    rw [toScript_nil, runLoop_nil_nil, compare_buffers_nil_left]
    rfl
  | cons a2 t2 =>
    rw [toScript_of_ne_nil (a2 :: t2) (List.cons_ne_nil a2 t2), runLoop_nil_ok,
      compare_buffers_nil_left]
    have hlen : ((a2 :: t2).take BUFFER_SIZE).length = min BUFFER_SIZE (a2 :: t2).length := by
      simp [List.length_take]
    rw [hlen, noteOfCmp_zero_min]

lemma runLoop_toScript_fuel (fuel : Nat) :
    ∀ (l1 l2 : List Nat) (off : Nat) (fmt : ValueOutputFormat) (bo : Bool),
      l1.length ≤ fuel →
      runLoop (toScript l1) (toScript l2) off fmt bo =
        ⟨compare_buffers l1 l2 off fmt bo, noteOfCmp l1.length l2.length, true⟩ := by
  induction fuel with
  | zero =>
    intro l1 l2 off fmt bo h
    have h1 : l1 = [] := by
      cases l1 with
      | nil => rfl
      | cons a t => simp at h
    subst h1
    exact runLoop_toScript_nil_left l2 off fmt bo
  | succ fuel ih =>
    intro l1 l2 off fmt bo h
    cases l1 with
    | nil => exact runLoop_toScript_nil_left l2 off fmt bo
    | cons a1 t1 =>
      cases l2 with
      | nil =>
        rw [toScript_of_ne_nil (a1 :: t1) (List.cons_ne_nil a1 t1), toScript_nil,
          runLoop_ok_nil, compare_buffers_nil_right]
        have hlen : ((a1 :: t1).take BUFFER_SIZE).length =
            min BUFFER_SIZE (a1 :: t1).length := by
          simp [List.length_take]
        rw [hlen, noteOfCmp_min_zero]
        rfl
      | cons a2 t2 =>
        rw [toScript_of_ne_nil (a1 :: t1) (List.cons_ne_nil a1 t1),
          toScript_of_ne_nil (a2 :: t2) (List.cons_ne_nil a2 t2), runLoop_ok_ok]
        have hm1 : ((a1 :: t1).take BUFFER_SIZE).length =
            min BUFFER_SIZE (a1 :: t1).length := by
          simp [List.length_take]
        have hm2 : ((a2 :: t2).take BUFFER_SIZE).length =
            min BUFFER_SIZE (a2 :: t2).length := by
          simp [List.length_take]
        rw [hm1, hm2]
        have hBpos : 0 < BUFFER_SIZE := by norm_num [BUFFER_SIZE]
        have hL1pos : 0 < (a1 :: t1).length := by simp
        have hL2pos : 0 < (a2 :: t2).length := by simp
        have hne : min (min BUFFER_SIZE (a1 :: t1).length)
            (min BUFFER_SIZE (a2 :: t2).length) ≠ 0 := by omega
        rw [if_pos hne]
        by_cases hb : min (min BUFFER_SIZE (a1 :: t1).length)
            (min BUFFER_SIZE (a2 :: t2).length) < BUFFER_SIZE
        · rw [if_pos hb]
          have hnmin : min (min BUFFER_SIZE (a1 :: t1).length)
              (min BUFFER_SIZE (a2 :: t2).length) =
              min (a1 :: t1).length (a2 :: t2).length := by omega
          have htake1 : List.take (min (min BUFFER_SIZE (a1 :: t1).length)
                (min BUFFER_SIZE (a2 :: t2).length)) (List.take BUFFER_SIZE (a1 :: t1)) =
              List.take (min (a1 :: t1).length (a2 :: t2).length) (a1 :: t1) := by
            rw [List.take_take]
            congr 1
            omega
          have htake2 : List.take (min (min BUFFER_SIZE (a1 :: t1).length)
                (min BUFFER_SIZE (a2 :: t2).length)) (List.take BUFFER_SIZE (a2 :: t2)) =
              List.take (min (a1 :: t1).length (a2 :: t2).length) (a2 :: t2) := by
            rw [List.take_take]
            congr 1
            omega
          rw [htake1, htake2,
            compare_buffers_take (min (a1 :: t1).length (a2 :: t2).length)
              (a1 :: t1) (a2 :: t2) off fmt bo (le_refl _),
            noteOfCmp_min (a1 :: t1).length (a2 :: t2).length hb]
        · rw [if_neg hb]
          have hL1ge : BUFFER_SIZE ≤ (a1 :: t1).length := by omega
          have hL2ge : BUFFER_SIZE ≤ (a2 :: t2).length := by omega
          have htake1 : List.take (min (min BUFFER_SIZE (a1 :: t1).length)
                (min BUFFER_SIZE (a2 :: t2).length)) (List.take BUFFER_SIZE (a1 :: t1)) =
              List.take BUFFER_SIZE (a1 :: t1) := by
            rw [List.take_take]
            congr 1
            omega
          have htake2 : List.take (min (min BUFFER_SIZE (a1 :: t1).length)
                (min BUFFER_SIZE (a2 :: t2).length)) (List.take BUFFER_SIZE (a2 :: t2)) =
              List.take BUFFER_SIZE (a2 :: t2) := by
            rw [List.take_take]
            congr 1
            omega
          rw [htake1, htake2]
          have hrec := ih ((a1 :: t1).drop BUFFER_SIZE) ((a2 :: t2).drop BUFFER_SIZE)
            (off + BUFFER_SIZE) fmt bo (by rw [List.length_drop]; omega)
          rw [hrec]
          have hldrop1 : ((a1 :: t1).drop BUFFER_SIZE).length =
              (a1 :: t1).length - BUFFER_SIZE := by
            rw [List.length_drop]
          have hldrop2 : ((a2 :: t2).drop BUFFER_SIZE).length =
              (a2 :: t2).length - BUFFER_SIZE := by
            rw [List.length_drop]
          rw [hldrop1, hldrop2, noteOfCmp_sub (a1 :: t1).length (a2 :: t2).length hL1ge hL2ge]
          have happ := compare_buffers_append (List.take BUFFER_SIZE (a1 :: t1))
            (List.take BUFFER_SIZE (a2 :: t2)) ((a1 :: t1).drop BUFFER_SIZE)
            ((a2 :: t2).drop BUFFER_SIZE) off fmt bo
            (by rw [List.length_take, List.length_take]; omega)
          rw [List.take_append_drop, List.take_append_drop] at happ
          have hlen1024 : (List.take BUFFER_SIZE (a1 :: t1)).length = BUFFER_SIZE := by
            rw [List.length_take]
            omega
          rw [hlen1024] at happ
          rw [← happ]

lemma runFile_eq (l1 l2 : List Nat) (fmt : ValueOutputFormat) (bo : Bool) :
    runFile l1 l2 fmt bo =
      ⟨compare_buffers l1 l2 0 fmt bo, noteOfCmp l1.length l2.length, true⟩ :=
  runLoop_toScript_fuel l1.length l1 l2 0 fmt bo (le_refl _)

lemma is_diff_self (bo : Bool) (v : Nat) : is_diff bo v v = false := by
  cases bo <;> simp [is_diff, is_bitflipped]

lemma runLoop_errscript_left :
    ∀ (c1s c2s : List (List Nat)) (r1 s2 : ReadScript) (off : Nat)
      (fmt : ValueOutputFormat) (bo : Bool),
      c1s.length = c2s.length →
      (∀ c ∈ c1s, c.length = BUFFER_SIZE) →
      (∀ c ∈ c2s, c.length = BUFFER_SIZE) →
      runLoop (c1s.map ReadResult.ok ++ ReadResult.err :: r1)
          (c2s.map ReadResult.ok ++ s2) off fmt bo =
        ⟨compare_buffers c1s.flatten c2s.flatten off fmt bo, none, false⟩ := by
  intro c1s
  induction c1s with
  | nil =>
    intro c2s r1 s2 off fmt bo hlen _ _
    have : c2s = [] := by
      have := hlen.symm
      simpa [List.length_eq_zero] using this
    subst this
    simp only [List.map_nil, List.nil_append, List.flatten_nil]
    rw [runLoop_err_head_left, compare_buffers_nil_left]
  | cons c1 cs1 ih =>
    intro c2s r1 s2 off fmt bo hlen h1 h2
    cases c2s with
    | nil => simp at hlen
    | cons c2 cs2 =>
      have hc1 : c1.length = BUFFER_SIZE := h1 c1 (by simp)
      have hc2 : c2.length = BUFFER_SIZE := h2 c2 (by simp)
      simp only [List.map_cons, List.cons_append]
      rw [runLoop_ok_ok]
      have hBpos : 0 < BUFFER_SIZE := by norm_num [BUFFER_SIZE]
      have hmin : min c1.length c2.length = BUFFER_SIZE := by
        rw [hc1, hc2]
        omega
      rw [hmin]
      rw [if_neg (by omega), if_pos (by omega)]
      have htake1 : List.take BUFFER_SIZE c1 = c1 := by
        rw [← hc1, List.take_length]
      have htake2 : List.take BUFFER_SIZE c2 = c2 := by
        rw [← hc2, List.take_length]
      rw [htake1, htake2]
      rw [ih cs2 r1 s2 (off + BUFFER_SIZE) fmt bo (by simpa using hlen)
        (fun c hc => h1 c (by simp [hc])) (fun c hc => h2 c (by simp [hc]))]
      have happ := compare_buffers_append c1 c2 cs1.flatten cs2.flatten off fmt bo
        (by rw [hc1, hc2])
      rw [hc1] at happ
      simp only [List.flatten_cons]
      rw [happ]

lemma runLoop_errscript_right :
    ∀ (c1s c2s : List (List Nat)) (s1 r2 : ReadScript) (off : Nat)
      (fmt : ValueOutputFormat) (bo : Bool),
      c1s.length = c2s.length →
      (∀ c ∈ c1s, c.length = BUFFER_SIZE) →
      (∀ c ∈ c2s, c.length = BUFFER_SIZE) →
      runLoop (c1s.map ReadResult.ok ++ s1)
          (c2s.map ReadResult.ok ++ ReadResult.err :: r2) off fmt bo =
        ⟨compare_buffers c1s.flatten c2s.flatten off fmt bo, none, false⟩ := by
  intro c1s
  induction c1s with
  | nil =>
    intro c2s s1 r2 off fmt bo hlen _ _
    have : c2s = [] := by
      have := hlen.symm
      simpa [List.length_eq_zero] using this
    subst this
    simp only [List.map_nil, List.nil_append, List.flatten_nil]
    rw [runLoop_err_head_right, compare_buffers_nil_left]
  | cons c1 cs1 ih =>
    intro c2s s1 r2 off fmt bo hlen h1 h2
    cases c2s with
    | nil => simp at hlen
    | cons c2 cs2 =>
      have hc1 : c1.length = BUFFER_SIZE := h1 c1 (by simp)
      have hc2 : c2.length = BUFFER_SIZE := h2 c2 (by simp)
      simp only [List.map_cons, List.cons_append]
      rw [runLoop_ok_ok]
      have hBpos : 0 < BUFFER_SIZE := by norm_num [BUFFER_SIZE]
      have hmin : min c1.length c2.length = BUFFER_SIZE := by
        rw [hc1, hc2]
        omega
      rw [hmin]
      rw [if_neg (by omega), if_pos (by omega)]
      have htake1 : List.take BUFFER_SIZE c1 = c1 := by
        rw [← hc1, List.take_length]
      have htake2 : List.take BUFFER_SIZE c2 = c2 := by
        rw [← hc2, List.take_length]
      rw [htake1, htake2]
      rw [ih cs2 s1 r2 (off + BUFFER_SIZE) fmt bo (by simpa using hlen)
        (fun c hc => h1 c (by simp [hc])) (fun c hc => h2 c (by simp [hc]))]
      have happ := compare_buffers_append c1 c2 cs1.flatten cs2.flatten off fmt bo
        (by rw [hc1, hc2])
      rw [hc1] at happ
      simp only [List.flatten_cons]
      rw [happ]

/-- C1: on every pair of finite input streams (read as regular files:
each read fills the full 1024-byte buffer until the bytes run out, so
the first short read happens exactly at end of file and the compared
region is `min l1.length l2.length` bytes), in every comparison mode
and output format, the loop emits exactly one row for each byte
position below the length of the shorter stream at which the classifier
fires — in strictly increasing offset order (the order of
`List.range`), each position once, with the row rendering the
position's absolute 0-based offset (chunk-boundary positions, i.e.
multiples of 1024, included automatically since `p` ranges over all
positions) and the two streams' bytes at that position. -/
theorem c1_comparator_emits_exactly_differences :
    ∀ (l1 l2 : List Nat) (fmt : ValueOutputFormat) (bo : Bool),
      (runFile l1 l2 fmt bo).rows =
        (List.range (min l1.length l2.length)).filterMap (fun p =>
          if is_diff bo (l1.getD p 0) (l2.getD p 0) = true
          then some (renderRow fmt p (l1.getD p 0) (l2.getD p 0))
          else none) := by
  intro l1 l2 fmt bo
  have hrows : (runFile l1 l2 fmt bo).rows = compare_buffers l1 l2 0 fmt bo := by
    rw [runFile_eq]
  rw [hrows, compare_buffers_eq_filterMap]
  congr 1
  funext p
  simp [Nat.zero_add]

/-- C3: if a read from either stream fails with an I/O error mid-run
(after any number of complete 1024-byte chunks were read from both
sides), the loop aborts at that iteration — it emits no further rows
and attempts no further reads — the run reports failure
(`success = false`, so `main` returns an error), and the rows already
emitted before the failing read are exactly the differences of the
prefix compared so far, preserved in the output. -/
theorem c3_read_error_aborts_preserving_output :
    ∀ (c1s c2s : List (List Nat)) (r1 r2 s1 s2 : ReadScript) (off : Nat)
      (fmt : ValueOutputFormat) (bo : Bool),
      c1s.length = c2s.length →
      (∀ c ∈ c1s, c.length = BUFFER_SIZE) →
      (∀ c ∈ c2s, c.length = BUFFER_SIZE) →
      runLoop (c1s.map ReadResult.ok ++ ReadResult.err :: r1)
          (c2s.map ReadResult.ok ++ s2) off fmt bo =
        ⟨compare_buffers c1s.flatten c2s.flatten off fmt bo, none, false⟩ ∧
      runLoop (c1s.map ReadResult.ok ++ s1)
          (c2s.map ReadResult.ok ++ ReadResult.err :: r2) off fmt bo =
        ⟨compare_buffers c1s.flatten c2s.flatten off fmt bo, none, false⟩ := by
  intro c1s c2s r1 r2 s1 s2 off fmt bo hlen h1 h2
  exact ⟨runLoop_errscript_left c1s c2s r1 s2 off fmt bo hlen h1 h2,
    runLoop_errscript_right c1s c2s s1 r2 off fmt bo hlen h1 h2⟩

theorem c3_witness :
    runLoop ([List.replicate 1024 0].map ReadResult.ok ++ ReadResult.err :: [])
        ([List.replicate 1024 1].map ReadResult.ok ++ []) 0
        ValueOutputFormat.Hex false =
      ⟨compare_buffers [List.replicate 1024 0].flatten [List.replicate 1024 1].flatten 0
        ValueOutputFormat.Hex false, none, false⟩ ∧
    runLoop ([List.replicate 1024 0].map ReadResult.ok ++ [])
        ([List.replicate 1024 1].map ReadResult.ok ++ ReadResult.err :: []) 0
        ValueOutputFormat.Hex false =
      ⟨compare_buffers [List.replicate 1024 0].flatten [List.replicate 1024 1].flatten 0
        ValueOutputFormat.Hex false, none, false⟩ :=
  c3_read_error_aborts_preserving_output [List.replicate 1024 0] [List.replicate 1024 1]
    [] [] [] [] 0 ValueOutputFormat.Hex false rfl
    (by
      intro c hc
      rw [List.mem_singleton] at hc
      rw [hc, List.length_replicate]
      rfl)
    (by
      intro c hc
      rw [List.mem_singleton] at hc
      rw [hc, List.length_replicate]
      rfl)

/-- C4: the "larger file" note.  On regular files the terminating
iteration is the first with `min n1 n2 < 1024`, and its `n1.cmp(&n2)`
orders exactly as the two total lengths do, so: the diagnostic note
says the second file is larger iff `l1` is shorter, the first file is
larger iff `l2` is shorter, and nothing iff the lengths agree; a
shorter first file whose content is a prefix of the second produces
zero difference rows together with the "second file is larger" note;
two identical streams produce no note. -/
theorem c4_terminating_note :
    ∀ (l1 l2 : List Nat) (fmt : ValueOutputFormat) (bo : Bool),
      ((runFile l1 l2 fmt bo).note =
        if l1.length < l2.length then some Note.secondLarger
        else if l2.length < l1.length then some Note.firstLarger
        else none) ∧
      (l1 <+: l2 → (runFile l1 l2 fmt bo).rows = [] ∧
        (l1.length < l2.length → (runFile l1 l2 fmt bo).note = some Note.secondLarger)) ∧
      (l1 = l2 → (runFile l1 l2 fmt bo).note = none) := by
  intro l1 l2 fmt bo
  have hnote : (runFile l1 l2 fmt bo).note = noteOfCmp l1.length l2.length := by
    rw [runFile_eq]
  refine ⟨?_, ?_, ?_⟩
  · rw [hnote]
    rfl
  · intro hpre
    constructor
    · have hrows : (runFile l1 l2 fmt bo).rows = compare_buffers l1 l2 0 fmt bo := by
        rw [runFile_eq]
      rw [hrows, compare_buffers_eq_filterMap, List.filterMap_eq_nil_iff]
      intro p hp
      rw [List.mem_range] at hp
      obtain ⟨t, rfl⟩ := hpre
      have hplt : p < l1.length := by
        simp only [List.length_append] at hp
        omega
      have hgd : (l1 ++ t).getD p 0 = l1.getD p 0 := List.getD_append l1 t 0 p hplt
      rw [hgd, is_diff_self]
      simp
    · intro hlt
      rw [hnote]
      unfold noteOfCmp
      rw [if_pos hlt]
  · intro heq
    subst heq
    rw [hnote]
    unfold noteOfCmp
    rw [if_neg (by omega), if_neg (by omega)]

theorem c4_witness :
    (runFile [5] [5, 7] ValueOutputFormat.Hex false).rows = [] ∧
    (runFile [5] [5, 7] ValueOutputFormat.Hex false).note = some Note.secondLarger ∧
    (runFile [5] [5] ValueOutputFormat.Hex false).note = none := by
  have h1 := c4_terminating_note [5] [5, 7] ValueOutputFormat.Hex false
  have h2 := c4_terminating_note [5] [5] ValueOutputFormat.Hex false
  have hpre : [5] <+: [5, 7] := ⟨[7], rfl⟩
  exact ⟨(h1.2.1 hpre).1, (h1.2.1 hpre).2 (by norm_num), h2.2.2 rfl⟩

/-- C7: exit status of the comparison loop.  On regular files — no
read error — the loop always ends with `success = true` (so `main`
returns `Ok` and the exit code is zero), no matter whether any
differences were found and no matter how the two lengths compare: a
length mismatch is not an error.  Conversely a read error on either
stream ends the run with `success = false` (a non-zero exit), whatever
was compared before it. -/
theorem c7_success_iff_no_io_error :
    (∀ (l1 l2 : List Nat) (fmt : ValueOutputFormat) (bo : Bool),
      (runFile l1 l2 fmt bo).success = true) ∧
    (∀ (c1s c2s : List (List Nat)) (r1 s2 : ReadScript) (off : Nat)
        (fmt : ValueOutputFormat) (bo : Bool),
      c1s.length = c2s.length →
      (∀ c ∈ c1s, c.length = BUFFER_SIZE) →
      (∀ c ∈ c2s, c.length = BUFFER_SIZE) →
      (runLoop (c1s.map ReadResult.ok ++ ReadResult.err :: r1)
          (c2s.map ReadResult.ok ++ s2) off fmt bo).success = false) ∧
    (∀ (c1s c2s : List (List Nat)) (s1 r2 : ReadScript) (off : Nat)
        (fmt : ValueOutputFormat) (bo : Bool),
      c1s.length = c2s.length →
      (∀ c ∈ c1s, c.length = BUFFER_SIZE) →
      (∀ c ∈ c2s, c.length = BUFFER_SIZE) →
      (runLoop (c1s.map ReadResult.ok ++ s1)
          (c2s.map ReadResult.ok ++ ReadResult.err :: r2) off fmt bo).success = false) := by
  refine ⟨?_, ?_, ?_⟩
  · intro l1 l2 fmt bo
    rw [runFile_eq]
  · intro c1s c2s r1 s2 off fmt bo hlen h1 h2
    rw [runLoop_errscript_left c1s c2s r1 s2 off fmt bo hlen h1 h2]
  · intro c1s c2s s1 r2 off fmt bo hlen h1 h2
    rw [runLoop_errscript_right c1s c2s s1 r2 off fmt bo hlen h1 h2]

theorem c7_witness :
    (runFile [0] [0, 1] ValueOutputFormat.Hex false).success = true ∧
    (runLoop [ReadResult.err] [] 0 ValueOutputFormat.Hex false).success = false ∧
    (runLoop [] [ReadResult.err] 0 ValueOutputFormat.Hex false).success = false := by
  refine ⟨c7_success_iff_no_io_error.1 [0] [0, 1] ValueOutputFormat.Hex false, ?_, ?_⟩
  · have h := c7_success_iff_no_io_error.2.1 [] [] [] [] 0 ValueOutputFormat.Hex false rfl
      (by intro c hc; simp at hc) (by intro c hc; simp at hc)
    simpa using h
  · have h := c7_success_iff_no_io_error.2.2 [] [] [] [] 0 ValueOutputFormat.Hex false rfl
      (by intro c hc; simp at hc) (by intro c hc; simp at hc)
    simpa using h

/-- C9: the comparator is deterministic.  Its observable behaviour is a
pure function of the two input byte sequences, the comparison mode and
the output format: two runs on equal inputs with equal configuration
produce identical primary output (header and rows, in order, with
identical rendering), note and status. -/
theorem c9_deterministic :
    ∀ (l1 l2 l1' l2' : List Nat) (fmt fmt' : ValueOutputFormat) (bo bo' : Bool),
      l1 = l1' → l2 = l2' → fmt = fmt' → bo = bo' →
      bincmp l1 l2 fmt bo = bincmp l1' l2' fmt' bo' := by
  intro l1 l2 l1' l2' fmt fmt' bo bo' h1 h2 h3 h4
  subst h1
  subst h2
  subst h3
  subst h4
  rfl

theorem c9_witness :
    bincmp [15] [31] ValueOutputFormat.Combined true =
      bincmp [15] [31] ValueOutputFormat.Combined true :=
  c9_deterministic [15] [31] [15] [31] ValueOutputFormat.Combined
    ValueOutputFormat.Combined true true rfl rfl rfl rfl

lemma loopOffsets_ok_ok (c1 c2 : List Nat) (t1 t2 : ReadScript) (off : Nat) :
    loopOffsets (ReadResult.ok c1 :: t1) (ReadResult.ok c2 :: t2) off =
      if min c1.length c2.length < BUFFER_SIZE then [off]
      else off :: loopOffsets t1 t2 (off + BUFFER_SIZE) := rfl

lemma loopOffsets_nil_left (s2 : ReadScript) (off : Nat) :
    loopOffsets [] s2 off = [off] := rfl

lemma loopOffsets_nil_right (c1 : List Nat) (t1 : ReadScript) (off : Nat) :
    loopOffsets (ReadResult.ok c1 :: t1) [] off = [off] := rfl

lemma comparedLens_ok_ok (c1 c2 : List Nat) (t1 t2 : ReadScript) :
    comparedLens (ReadResult.ok c1 :: t1) (ReadResult.ok c2 :: t2) =
      if min c1.length c2.length < BUFFER_SIZE then [min c1.length c2.length]
      else min c1.length c2.length :: comparedLens t1 t2 := rfl

lemma comparedLens_nil_left (s2 : ReadScript) : comparedLens [] s2 = [0] := rfl

lemma comparedLens_nil_right (c1 : List Nat) (t1 : ReadScript) :
    comparedLens (ReadResult.ok c1 :: t1) [] = [0] := rfl

lemma list_range_one : List.range 1 = [0] := rfl

lemma loopOffsets_toScript_fuel (fuel : Nat) :
    ∀ (l1 l2 : List Nat) (off : Nat),
      l1.length ≤ fuel →
      loopOffsets (toScript l1) (toScript l2) off =
        (List.range (min l1.length l2.length / BUFFER_SIZE + 1)).map
          (fun i => off + BUFFER_SIZE * i) := by
  induction fuel with
  | zero =>
    intro l1 l2 off h
    have h1 : l1 = [] := by
      cases l1 with
      | nil => rfl
      | cons a t => simp at h
    subst h1
    rw [toScript_nil, loopOffsets_nil_left]
    simp [list_range_one]
  | succ fuel ih =>
    intro l1 l2 off h
    cases l1 with
    | nil =>
      rw [toScript_nil, loopOffsets_nil_left]
      simp [list_range_one]
    | cons a1 t1 =>
      cases l2 with
      | nil =>
        rw [toScript_of_ne_nil (a1 :: t1) (List.cons_ne_nil a1 t1), toScript_nil,
          loopOffsets_nil_right]
        simp [list_range_one]
      | cons a2 t2 =>
        rw [toScript_of_ne_nil (a1 :: t1) (List.cons_ne_nil a1 t1),
          toScript_of_ne_nil (a2 :: t2) (List.cons_ne_nil a2 t2), loopOffsets_ok_ok]
        have hm1 : ((a1 :: t1).take BUFFER_SIZE).length =
            min BUFFER_SIZE (a1 :: t1).length := by
          simp [List.length_take]
        have hm2 : ((a2 :: t2).take BUFFER_SIZE).length =
            min BUFFER_SIZE (a2 :: t2).length := by
          simp [List.length_take]
        rw [hm1, hm2]
        have hBpos : 0 < BUFFER_SIZE := by norm_num [BUFFER_SIZE]
        by_cases hb : min (min BUFFER_SIZE (a1 :: t1).length)
            (min BUFFER_SIZE (a2 :: t2).length) < BUFFER_SIZE
        · rw [if_pos hb]
          have hlt : min (a1 :: t1).length (a2 :: t2).length < BUFFER_SIZE := by omega
          rw [Nat.div_eq_of_lt hlt]
          simp [list_range_one]
        · rw [if_neg hb]
          have hL1ge : BUFFER_SIZE ≤ (a1 :: t1).length := by omega
          have hL2ge : BUFFER_SIZE ≤ (a2 :: t2).length := by omega
          rw [ih ((a1 :: t1).drop BUFFER_SIZE) ((a2 :: t2).drop BUFFER_SIZE)
            (off + BUFFER_SIZE) (by rw [List.length_drop]; omega)]
          rw [List.length_drop, List.length_drop]
          have hminsub : min ((a1 :: t1).length - BUFFER_SIZE)
              ((a2 :: t2).length - BUFFER_SIZE) =
              min (a1 :: t1).length (a2 :: t2).length - BUFFER_SIZE := by omega
          rw [hminsub]
          have hdiv : min (a1 :: t1).length (a2 :: t2).length / BUFFER_SIZE =
              (min (a1 :: t1).length (a2 :: t2).length - BUFFER_SIZE) / BUFFER_SIZE + 1 :=
            Nat.div_eq_sub_div hBpos (by omega)
          conv_rhs => rw [hdiv, List.range_succ_eq_map, List.map_cons, List.map_map]
          refine List.cons_eq_cons.mpr ⟨by omega, ?_⟩
          refine List.map_congr_left ?_
          intro i _
          simp only [Function.comp]
          rw [Nat.mul_succ]
          omega

lemma loopOffsets_file (l1 l2 : List Nat) :
    loopOffsets (toScript l1) (toScript l2) 0 =
      (List.range (min l1.length l2.length / BUFFER_SIZE + 1)).map
        (fun i => 0 + BUFFER_SIZE * i) :=
  loopOffsets_toScript_fuel l1.length l1 l2 0 (le_refl _)

lemma comparedLens_toScript_fuel (fuel : Nat) :
    ∀ (l1 l2 : List Nat),
      l1.length ≤ fuel →
      comparedLens (toScript l1) (toScript l2) =
        List.replicate (min l1.length l2.length / BUFFER_SIZE) BUFFER_SIZE ++
          [min l1.length l2.length % BUFFER_SIZE] := by
  induction fuel with
  | zero =>
    intro l1 l2 h
    have h1 : l1 = [] := by
      cases l1 with
      | nil => rfl
      | cons a t => simp at h
    subst h1
    rw [toScript_nil, comparedLens_nil_left]
    simp [Nat.zero_div, Nat.zero_mod]
  | succ fuel ih =>
    intro l1 l2 h
    cases l1 with
    | nil =>
      rw [toScript_nil, comparedLens_nil_left]
      simp [Nat.zero_div, Nat.zero_mod]
    | cons a1 t1 =>
      cases l2 with
      | nil =>
        rw [toScript_of_ne_nil (a1 :: t1) (List.cons_ne_nil a1 t1), toScript_nil,
          comparedLens_nil_right]
        simp [Nat.zero_div, Nat.zero_mod]
      | cons a2 t2 =>
        rw [toScript_of_ne_nil (a1 :: t1) (List.cons_ne_nil a1 t1),
          toScript_of_ne_nil (a2 :: t2) (List.cons_ne_nil a2 t2), comparedLens_ok_ok]
        have hm1 : ((a1 :: t1).take BUFFER_SIZE).length =
            min BUFFER_SIZE (a1 :: t1).length := by
          simp [List.length_take]
        have hm2 : ((a2 :: t2).take BUFFER_SIZE).length =
            min BUFFER_SIZE (a2 :: t2).length := by
          simp [List.length_take]
        rw [hm1, hm2]
        have hBpos : 0 < BUFFER_SIZE := by norm_num [BUFFER_SIZE]
        by_cases hb : min (min BUFFER_SIZE (a1 :: t1).length)
            (min BUFFER_SIZE (a2 :: t2).length) < BUFFER_SIZE
        · rw [if_pos hb]
          have hlt : min (a1 :: t1).length (a2 :: t2).length < BUFFER_SIZE := by omega
          rw [Nat.div_eq_of_lt hlt, Nat.mod_eq_of_lt hlt]
          have hmm : min (min BUFFER_SIZE (a1 :: t1).length)
              (min BUFFER_SIZE (a2 :: t2).length) =
              min (a1 :: t1).length (a2 :: t2).length := by omega
          rw [hmm]
          simp
        · rw [if_neg hb]
          have hL1ge : BUFFER_SIZE ≤ (a1 :: t1).length := by omega
          have hL2ge : BUFFER_SIZE ≤ (a2 :: t2).length := by omega
          have hmm : min (min BUFFER_SIZE (a1 :: t1).length)
              (min BUFFER_SIZE (a2 :: t2).length) = BUFFER_SIZE := by omega
          rw [hmm]
          rw [ih ((a1 :: t1).drop BUFFER_SIZE) ((a2 :: t2).drop BUFFER_SIZE)
            (by rw [List.length_drop]; omega)]
          rw [List.length_drop, List.length_drop]
          have hminsub : min ((a1 :: t1).length - BUFFER_SIZE)
              ((a2 :: t2).length - BUFFER_SIZE) =
              min (a1 :: t1).length (a2 :: t2).length - BUFFER_SIZE := by omega
          rw [hminsub]
          have hdiv : min (a1 :: t1).length (a2 :: t2).length / BUFFER_SIZE =
              (min (a1 :: t1).length (a2 :: t2).length - BUFFER_SIZE) / BUFFER_SIZE + 1 :=
            Nat.div_eq_sub_div hBpos (by omega)
          have hmod : min (a1 :: t1).length (a2 :: t2).length % BUFFER_SIZE =
              (min (a1 :: t1).length (a2 :: t2).length - BUFFER_SIZE) % BUFFER_SIZE :=
            Nat.mod_eq_sub_mod (by omega)
          rw [hdiv, hmod, List.replicate_succ, List.cons_append]

lemma comparedLens_file (l1 l2 : List Nat) :
    comparedLens (toScript l1) (toScript l2) =
      List.replicate (min l1.length l2.length / BUFFER_SIZE) BUFFER_SIZE ++
        [min l1.length l2.length % BUFFER_SIZE] :=
  comparedLens_toScript_fuel l1.length l1 l2 (le_refl _)

/-- C6: invariant of the `offset` accumulator on regular files.  The
offsets observed at the start of the successive loop iterations start
at 0, never decrease, and the offset at the start of iteration `k`
equals both the sum of the numbers of bytes compared in all previous
iterations (every previous iteration compared a full 1024-byte chunk)
and `1024 * k`, the absolute byte position of the start of the current
chunk in both streams. -/
theorem c6_offset_accumulator_invariant :
    ∀ (l1 l2 : List Nat) (k : Nat),
      (loopOffsets (toScript l1) (toScript l2) 0).head? = some 0 ∧
      List.Chain' (fun a b => a ≤ b) (loopOffsets (toScript l1) (toScript l2) 0) ∧
      (k < (loopOffsets (toScript l1) (toScript l2) 0).length →
        (loopOffsets (toScript l1) (toScript l2) 0).getD k 0 =
          ((comparedLens (toScript l1) (toScript l2)).take k).sum ∧
        (loopOffsets (toScript l1) (toScript l2) 0).getD k 0 = BUFFER_SIZE * k) := by
  intro l1 l2 k
  rw [loopOffsets_file, comparedLens_file]
  refine ⟨?_, ?_, ?_⟩
  · rw [List.range_succ_eq_map, List.map_cons, List.head?_cons]
    simp
  · rw [List.chain'_map]
    rw [show min l1.length l2.length / BUFFER_SIZE + 1 =
      (min l1.length l2.length / BUFFER_SIZE).succ from rfl]
    rw [List.chain'_range_succ]
    intro m _
    have : BUFFER_SIZE * m ≤ BUFFER_SIZE * m.succ :=
      Nat.mul_le_mul_left BUFFER_SIZE (Nat.le_succ m)
    omega
  · intro hk
    rw [List.length_map, List.length_range] at hk
    have hgd : ((List.range (min l1.length l2.length / BUFFER_SIZE + 1)).map
        (fun i => 0 + BUFFER_SIZE * i)).getD k 0 = BUFFER_SIZE * k := by
      rw [List.getD_eq_getElem _ _ (by rw [List.length_map, List.length_range]; omega)]
      rw [List.getElem_map, List.getElem_range]
      omega
    refine ⟨?_, hgd⟩
    rw [hgd]
    have hkle : k ≤ min l1.length l2.length / BUFFER_SIZE := by omega
    rw [List.take_append_of_le_length (by rw [List.length_replicate]; omega)]
    rw [List.take_replicate]
    have hmink : min k (min l1.length l2.length / BUFFER_SIZE) = k := by omega
    rw [hmink, List.sum_replicate, smul_eq_mul, Nat.mul_comm]

theorem c6_witness :
    (loopOffsets (toScript [1, 2]) (toScript [1]) 0).head? = some 0 ∧
    List.Chain' (fun a b => a ≤ b) (loopOffsets (toScript [1, 2]) (toScript [1]) 0) ∧
    ((loopOffsets (toScript [1, 2]) (toScript [1]) 0).getD 0 0 =
      ((comparedLens (toScript [1, 2]) (toScript [1])).take 0).sum ∧
     (loopOffsets (toScript [1, 2]) (toScript [1]) 0).getD 0 0 = BUFFER_SIZE * 0) := by
  have h := c6_offset_accumulator_invariant [1, 2] [1] 0
  refine ⟨h.1, h.2.1, h.2.2 ?_⟩
  rw [loopOffsets_file]
  rw [List.length_map, List.length_range]
  exact Nat.succ_pos _

theorem c2_witness :
    (is_bitflipped (0 : Fin 256).val (3 : Fin 256).val = true ↔
      popcount ((0 : Fin 256).val ^^^ (3 : Fin 256).val) = 1) ∧
    is_bitflipped (0 : Fin 256).val (0 : Fin 256).val = false ∧
    is_bitflipped (0 : Fin 256).val (3 : Fin 256).val = false := by
  have h := c2_bitflip_classifier 0 3
  exact ⟨h.1, h.2.1, h.2.2 (by decide)⟩
